import Mathlib

/-!
Verification of the search-and-rank core of the zeal-cli-rs repository
(src/main.rs), shallowly embedded in Lean.

Modelling conventions:
- Rust `String` values become Lean `String` (a structure over `List Char`);
  Rust's byte-wise `String::cmp` coincides with lexicographic comparison of
  Unicode code points on UTF-8 strings, embedded here as `lexLt` on
  `List Char` compared through `Char.toNat`.
- The SQLite store is embedded as `Option (List RawRow)`: `none` models a
  store that cannot be opened or queried (missing file, corrupt format,
  permission denied), `some rows` the record table.  A `RawRow` carries
  `Option String` fields so that NULL columns can be represented.
- `rusqlite`'s `query_map` + `collect::<Result<Vec<_>, _>>()` becomes
  `collectExcept`, which stops at the first row error.
- Rust's stable `slice::sort_by` is embedded as the stable insertion sort
  `sortStable` (any stable sort with the same total preorder produces the
  same output list, so this is observationally faithful and keeps the
  definition computable by the kernel).
- `rayon`'s `par_iter().filter_map(..).collect()` preserves the sequential
  order of the underlying indexed iterator, so it is embedded as the
  sequential `List.filterMap`.
-/

set_option maxRecDepth 4000

namespace ZealCli

/-! ## Byte-wise string comparison (Rust `String::cmp`) -/

/-- Strict lexicographic order on character lists, comparing code points;
this is the order `String::cmp` induces on Rust strings. -/
def lexLt : List Char → List Char → Bool
  | [], [] => false
  | [], _ :: _ => true
  | _ :: _, [] => false
  | a :: as, b :: bs => a.toNat < b.toNat || (a.toNat == b.toNat && lexLt as bs)

/-- Non-strict companion of `lexLt`. -/
def lexLe (a b : List Char) : Bool := !(lexLt b a)

theorem char_eq_of_toNat_eq {a b : Char} (h : a.toNat = b.toNat) : a = b := by
  have := congrArg Char.ofNat h
  rwa [Char.ofNat_toNat, Char.ofNat_toNat] at this

theorem lexLt_irrefl : ∀ l : List Char, lexLt l l = false := by
  intro l
  induction l with
  | nil => rfl
  | cons a as ih => simp [lexLt, ih]

theorem lexLt_trans : ∀ a b c : List Char,
    lexLt a b = true → lexLt b c = true → lexLt a c = true := by
  intro a
  induction a with
  | nil =>
    intro b c hab hbc
    cases b with
    | nil => simp [lexLt] at hab
    | cons x xs =>
      cases c with
      | nil => simp [lexLt] at hbc
      | cons y ys => simp [lexLt]
  | cons x xs ih =>
    intro b c hab hbc
    cases b with
    | nil => simp [lexLt] at hab
    | cons y ys =>
      cases c with
      | nil => simp [lexLt] at hbc
      | cons z zs =>
        simp [lexLt] at hab hbc ⊢
        rcases hab with h1 | ⟨he1, h1⟩
        · rcases hbc with h2 | ⟨he2, h2⟩
          · exact Or.inl (Nat.lt_trans h1 h2)
          · exact Or.inl (he2 ▸ h1)
        · rcases hbc with h2 | ⟨he2, h2⟩
          · exact Or.inl (he1 ▸ h2)
          · exact Or.inr ⟨he1.trans he2, ih ys zs h1 h2⟩

theorem lexLt_trichotomy : ∀ a b : List Char,
    lexLt a b = true ∨ lexLt b a = true ∨ a = b := by
  intro a
  induction a with
  | nil =>
    intro b
    cases b with
    | nil => exact Or.inr (Or.inr rfl)
    | cons y ys => exact Or.inl (by simp [lexLt])
  | cons x xs ih =>
    intro b
    cases b with
    | nil => exact Or.inr (Or.inl (by simp [lexLt]))
    | cons y ys =>
      rcases Nat.lt_trichotomy x.toNat y.toNat with h | h | h
      · exact Or.inl (by simp [lexLt, h])
      · rcases ih ys with h2 | h2 | h2
        · exact Or.inl (by simp [lexLt, h, h2])
        · exact Or.inr (Or.inl (by simp [lexLt, h.symm, h2]))
        · exact Or.inr (Or.inr (by rw [char_eq_of_toNat_eq h, h2]))
      · exact Or.inr (Or.inl (by simp [lexLt, h]))

theorem lexLe_total : ∀ a b : List Char, (lexLe a b || lexLe b a) = true := by
  intro a b
  by_cases h : lexLt b a = true
  · have : lexLt a b = false := by
      by_contra hc
      have hab : lexLt a b = true := by
        cases hx : lexLt a b with
        | true => rfl
        | false => exact absurd hx hc
      have := lexLt_trans a b a hab h
      rw [lexLt_irrefl] at this
      exact Bool.noConfusion this
    simp [lexLe, this]
  · have : lexLt b a = false := by
      cases hx : lexLt b a with
      | true => exact absurd hx h
      | false => rfl
    simp [lexLe, this]

theorem lexLe_trans : ∀ a b c : List Char,
    lexLe a b = true → lexLe b c = true → lexLe a c = true := by
  intro a b c hab hbc
  simp [lexLe] at hab hbc ⊢
  by_contra hc
  have hca : lexLt c a = true := by
    cases hx : lexLt c a with
    | true => rfl
    | false => exact absurd hx hc
  rcases lexLt_trichotomy a b with h | h | h
  · have := lexLt_trans c a b hca h
    rw [hbc] at this
    exact Bool.noConfusion this
  · rw [hab] at h
    exact Bool.noConfusion h
  · subst h
    rw [hbc] at hca
    exact Bool.noConfusion hca

theorem lexLe_antisymm : ∀ a b : List Char,
    lexLe a b = true → lexLe b a = true → a = b := by
  intro a b hab hba
  simp [lexLe] at hab hba
  rcases lexLt_trichotomy a b with h | h | h
  · rw [hba] at h
    exact Bool.noConfusion h
  · rw [hab] at h
    exact Bool.noConfusion h
  · exact h

/-! ## Stable sort (Rust `slice::sort_by`) -/

/-- Insert `a` into `l`, before the first element `b` with `le a b`. -/
def insertSorted (le : α → α → Bool) (a : α) : List α → List α
  | [] => [a]
  | b :: bs => if le a b then a :: b :: bs else b :: insertSorted le a bs

/-- Stable insertion sort; models Rust's stable `sort_by`. -/
def sortStable (le : α → α → Bool) : List α → List α
  | [] => []
  | a :: t => insertSorted le a (sortStable le t)

theorem insertSorted_perm (le : α → α → Bool) (a : α) :
    ∀ l : List α, (insertSorted le a l).Perm (a :: l) := by
  intro l
  induction l with
  | nil => simp [insertSorted]
  | cons b bs ih =>
    simp only [insertSorted]
    by_cases h : le a b = true
    · simp [h]
    · have hf : le a b = false := by
        cases hx : le a b with
        | true => exact absurd hx h
        | false => rfl
      rw [hf]
      simp only [Bool.false_eq_true, if_false]
      exact (ih.cons b).trans (List.Perm.swap a b bs)

theorem sortStable_perm (le : α → α → Bool) :
    ∀ l : List α, (sortStable le l).Perm l := by
  intro l
  induction l with
  | nil => simp [sortStable]
  | cons a t ih =>
    exact (insertSorted_perm le a (sortStable le t)).trans (ih.cons a)

theorem mem_insertSorted (le : α → α → Bool) (a x : α) (l : List α) :
    x ∈ insertSorted le a l ↔ x = a ∨ x ∈ l := by
  constructor
  · intro h
    have := (insertSorted_perm le a l).mem_iff.mp h
    simpa using this
  · intro h
    apply (insertSorted_perm le a l).mem_iff.mpr
    simpa using h

theorem pairwise_insertSorted (le : α → α → Bool)
    (htrans : ∀ a b c : α, le a b = true → le b c = true → le a c = true)
    (htot : ∀ a b : α, (le a b || le b a) = true) (a : α) :
    ∀ l : List α, l.Pairwise (fun x y => le x y = true) →
      (insertSorted le a l).Pairwise (fun x y => le x y = true) := by
  intro l
  induction l with
  | nil =>
    intro _
    simp [insertSorted]
  | cons b bs ih =>
    intro hp
    rcases List.pairwise_cons.mp hp with ⟨hb, hbs⟩
    simp only [insertSorted]
    by_cases h : le a b = true
    · rw [h]
      simp only [if_true]
      refine List.pairwise_cons.mpr ⟨?_, hp⟩
      intro y hy
      rcases List.mem_cons.mp hy with rfl | hy
      · exact h
      · exact htrans a b y h (hb y hy)
    · have hf : le a b = false := by
        cases hx : le a b with
        | true => exact absurd hx h
        | false => rfl
      rw [hf]
      simp only [Bool.false_eq_true, if_false]
      refine List.pairwise_cons.mpr ⟨?_, ih hbs⟩
      intro y hy
      rcases (mem_insertSorted le a y bs).mp hy with heq | hy
      · rw [heq]
        have h2 := htot a b
        rw [hf] at h2
        simpa using h2
      · exact hb y hy

theorem pairwise_sortStable (le : α → α → Bool)
    (htrans : ∀ a b c : α, le a b = true → le b c = true → le a c = true)
    (htot : ∀ a b : α, (le a b || le b a) = true) :
    ∀ l : List α, (sortStable le l).Pairwise (fun x y => le x y = true) := by
  intro l
  induction l with
  | nil => simp [sortStable]
  | cons a t ih => exact pairwise_insertSorted le htrans htot a (sortStable le t) ih

theorem filter_insertSorted_pos (le : α → α → Bool) (p : α → Bool) (a : α)
    (ha : p a = true) (hmin : ∀ b : α, p b = true → le a b = true) :
    ∀ l : List α, (insertSorted le a l).filter p = a :: l.filter p := by
  intro l
  induction l with
  | nil => simp [insertSorted, ha]
  | cons b bs ih =>
    simp only [insertSorted]
    by_cases h : le a b = true
    · rw [h]
      simp [List.filter, ha]
    · have hf : le a b = false := by
        cases hx : le a b with
        | true => exact absurd hx h
        | false => rfl
      rw [hf]
      simp only [Bool.false_eq_true, if_false]
      have hpb : p b = false := by
        cases hx : p b with
        | true => exact absurd (hmin b hx) h
        | false => rfl
      simp [List.filter, hpb, ih]

theorem filter_insertSorted_neg (le : α → α → Bool) (p : α → Bool) (a : α)
    (ha : p a = false) :
    ∀ l : List α, (insertSorted le a l).filter p = l.filter p := by
  intro l
  induction l with
  | nil => simp [insertSorted, ha]
  | cons b bs ih =>
    simp only [insertSorted]
    by_cases h : le a b = true
    · rw [h]
      simp [List.filter, ha]
    · have hf : le a b = false := by
        cases hx : le a b with
        | true => exact absurd hx h
        | false => rfl
      rw [hf]
      simp only [Bool.false_eq_true, if_false]
      cases hx : p b with
      | true => simp [List.filter, hx, ih]
      | false => simp [List.filter, hx, ih]

/-- Stability of `sortStable`: elements that all tie with each other under
`le` keep their original relative order, expressed through `filter`. -/
theorem filter_sortStable_of_tie (le : α → α → Bool) (p : α → Bool)
    (htie : ∀ a b : α, p a = true → p b = true → le a b = true) :
    ∀ l : List α, (sortStable le l).filter p = l.filter p := by
  intro l
  induction l with
  | nil => simp [sortStable]
  | cons a t ih =>
    simp only [sortStable]
    cases hx : p a with
    | true =>
      rw [filter_insertSorted_pos le p a hx (fun b hb => htie a b hx hb), ih]
      simp [List.filter, hx]
    | false =>
      rw [filter_insertSorted_neg le p a hx, ih]
      simp [List.filter, hx]

/-- A sorted permutation with pairwise-distinct keys is unique: this is what
makes the empty-query listing independent of the store's enumeration order. -/
theorem sorted_perm_eq_of_nodup_key (le : α → α → Bool) (key : α → List Char)
    (hkey : ∀ a b : α, le a b = true → le b a = true → key a = key b) :
    ∀ l₁ l₂ : List α, l₁.Perm l₂ →
      l₁.Pairwise (fun x y => le x y = true) →
      l₂.Pairwise (fun x y => le x y = true) →
      (l₁.map key).Nodup → l₁ = l₂ := by
  intro l₁
  induction l₁ with
  | nil =>
    intro l₂ hperm _ _ _
    exact (hperm.nil_eq).symm ▸ rfl
  | cons a t₁ ih =>
    intro l₂ hperm hp₁ hp₂ hnd
    cases l₂ with
    | nil => exact absurd hperm.symm.nil_eq (by simp)
    | cons b t₂ =>
      rcases List.pairwise_cons.mp hp₁ with ⟨ha, hpt₁⟩
      rcases List.pairwise_cons.mp hp₂ with ⟨hbb, hpt₂⟩
      have hab : a = b := by
        have hain : a ∈ b :: t₂ := hperm.mem_iff.mp (List.mem_cons_self a t₁)
        have hbin : b ∈ a :: t₁ := hperm.symm.mem_iff.mp (List.mem_cons_self b t₂)
        rcases List.mem_cons.mp hain with h1 | h1
        · exact h1
        rcases List.mem_cons.mp hbin with h2 | h2
        · exact h2.symm
        have hle1 : le a b = true := ha b h2
        have hle2 : le b a = true := hbb a h1
        have hk : key a = key b := hkey a b hle1 hle2
        rcases List.nodup_cons.mp hnd with ⟨hnotin, _⟩
        exact absurd (hk ▸ List.mem_map_of_mem key h2) hnotin
      subst hab
      have htperm : t₁.Perm t₂ := hperm.cons_inv
      have hndt : (t₁.map key).Nodup := (List.nodup_cons.mp hnd).2
      rw [ih t₂ htperm hpt₁ hpt₂ hndt]

/-! ## Data model: rows of the docSet.dsidx searchIndex table -/

/-- A raw stored row of the `searchIndex` table.  Each column may be NULL,
which `Option` captures; `rusqlite`'s `row.get::<_, String>` fails on NULL. -/
structure RawRow where
  name : Option String
  type_ : Option String
  path : Option String
  deriving DecidableEq

/-- Errors of the search pipeline.  `storeUnavailable` models every failure
of `Connection::open`/`prepare` (missing file, corrupt format, permission
denied); `invalidColumnType` models a row-level `row.get` failure on an
unexpected NULL column. -/
inductive SearchError where
  | storeUnavailable
  | invalidColumnType
  deriving DecidableEq

/-- A scored match tuple `(score, name, type, path)` as built by
`search_docset` in src/main.rs. -/
structure Entry where
  score : Int
  name : String
  type_ : String
  path : String
  deriving DecidableEq

/-- Reading the three TEXT columns of one row; a NULL in any of them makes
the row read fail, mirroring `row.get::<_, String>(i)?`. -/
def readRow3 (r : RawRow) : Except SearchError (String × String × String) :=
  match r.name, r.type_, r.path with
  | some n, some t, some p => Except.ok (n, t, p)
  | _, _, _ => Except.error SearchError.invalidColumnType

/-- A row is well formed when no column is NULL. -/
def wfRow (r : RawRow) : Bool := r.name.isSome && r.type_.isSome && r.path.isSome

/-- The column values of a well-formed row. -/
def rowVal (r : RawRow) : String × String × String :=
  (r.name.getD (""), r.type_.getD (""), r.path.getD (""))

/-- Models `rows.collect::<Result<Vec<_>, _>>()`: the first row error aborts
the whole collection. -/
def collectExcept : List (Except SearchError α) → Except SearchError (List α)
  | [] => Except.ok []
  | Except.error e :: _ => Except.error e
  | Except.ok a :: rest => (collectExcept rest).map (fun as => a :: as)

/-! ## SQL LIKE (the pre-filter `WHERE name LIKE '%' || ?1 || '%'`) -/

/-- All suffixes of a character list, longest first (the list itself down to
the empty suffix). -/
def suffixes : List Char → List (List Char)
  | [] => [[]]
  | c :: cs => (c :: cs) :: suffixes cs

/-- SQLite LIKE matching: `%` matches any sequence of characters, `_` any
single character, and other characters compare ASCII-case-insensitively. -/
def likeMatch : List Char → List Char → Bool
  | [], s => s.isEmpty
  | p :: pt, s =>
    if p = '%' then
      (suffixes s).any (fun t => likeMatch pt t)
    else
      match s with
      | [] => false
      | c :: st => (if p = '_' then true else (Char.toLower p == Char.toLower c)) && likeMatch pt st

/-- The LIKE pattern `'%' || query || '%'` built by the fuzzy-mode SQL. -/
def likePattern (q : String) : List Char := '%' :: (q.data ++ ['%'])

/-- The SQL `WHERE name LIKE '%' || ?1 || '%'` pre-filter.  A NULL name makes
the predicate NULL in SQL, so such rows are not returned. -/
def likeFilter (q : String) (rows : List RawRow) : List RawRow :=
  rows.filter (fun r =>
    match r.name with
    | none => false
    | some n => likeMatch (likePattern q) n.data)

/-! ## Fuzzy matcher -/

/-- Greedy test that `p` occurs in order as a subsequence of `n`. -/
def isSubseqB : List Char → List Char → Bool
  | [], _ => true
  | _ :: _, [] => false
  | c :: cs, d :: ds => if c == d then isSubseqB cs ds else isSubseqB (c :: cs) ds

/-- Boolean list-prefix test. -/
def isPrefixB : List Char → List Char → Bool
  | [], _ => true
  | _ :: _, [] => false
  | c :: cs, d :: ds => c == d && isPrefixB cs ds

/-- Boolean contiguous-occurrence (infix) test. -/
def isInfixB : List Char → List Char → Bool
  | t, [] => isPrefixB t []
  | t, d :: ds => isPrefixB t (d :: ds) || isInfixB t ds

/-- Modelled from the spec: `search_docset` delegates fuzzy scoring to
`SkimMatcherV2::fuzzy_match` of the external fuzzy-matcher crate, whose
source is not part of this repository.  Following section 4.3 of the spec,
the scorer admits a candidate iff the query's characters appear in order as
a subsequence of the candidate name (case-insensitive folding), and the
score rewards contiguity (a bonus when the whole query occurs contiguously)
and shorter candidates (rule 4, smaller edit distance); no score is emitted
when no subsequence alignment exists. -/
def fuzzy_match (name q : String) : Option Int :=
  let n := name.data.map Char.toLower
  let p := q.data.map Char.toLower
  if isSubseqB p n then
    some (2 * (q.data.length : Int) - (name.data.length : Int) +
      (if isInfixB p n then (q.data.length : Int) else 0))
  else none

/-! ## Ranking and output -/

/-- Ascending byte-wise comparison by name, `matches.sort_by(|a, b| a.1.cmp(&b.1))`. -/
def nameLe (a b : Entry) : Bool := lexLe a.name.data b.name.data

/-- The empty-query sort: stable, ascending by name. -/
def sortByName (l : List Entry) : List Entry := sortStable nameLe l

/-- Descending comparison by score, `scored.sort_by(|a, b| b.0.cmp(&a.0))`. -/
def scoreDescLe (a b : Entry) : Bool := decide (b.score ≤ a.score)

/-- The fuzzy-mode sort: stable, descending by score. -/
def sortDescScore (l : List Entry) : List Entry := sortStable scoreDescLe l

/-- `docs_dir.join(path)` for the relative paths stored in the index. -/
def pathJoin (base p : String) : String := base ++ ("/") ++ p

/-- The empty-query row mapping: constant score 0 and eager path join. -/
def toEntry0 (docsDir : String) (v : String × String × String) : Entry :=
  ⟨0, v.1, v.2.1, pathJoin docsDir v.2.2⟩

/-- Empty-query (list) mode: full scan, collect (aborting on a row error),
then stable sort ascending by name. -/
def emptyQueryMatches (docsDir : String) (rows : List RawRow) :
    Except SearchError (List Entry) :=
  (collectExcept (rows.map (fun r => (readRow3 r).map (toEntry0 docsDir)))).map sortByName

/-- Parallel fuzzy scoring of the LIKE-filtered candidates; `rayon`'s
order-preserving collect makes this a sequential `filterMap`.  Candidates
whose `fuzzy_match` is `None` are dropped entirely. -/
def scoredCandidates (q : String) (cands : List (String × String × String)) : List Entry :=
  cands.filterMap (fun v => (fuzzy_match v.1 q).map (fun score => ⟨score, v.1, v.2.1, v.2.2⟩))

/-- The deferred `docs_dir.join(path)` applied after sorting in fuzzy mode. -/
def joinEntry (docsDir : String) (e : Entry) : Entry :=
  ⟨e.score, e.name, e.type_, pathJoin docsDir e.path⟩

/-- Fuzzy mode: LIKE pre-filter, collect (aborting on a row error), parallel
fuzzy scoring, stable sort descending by score, then path join. -/
def fuzzyQueryMatches (docsDir q : String) (rows : List RawRow) :
    Except SearchError (List Entry) :=
  (collectExcept ((likeFilter q rows).map readRow3)).map
    (fun cands => (sortDescScore (scoredCandidates q cands)).map (joinEntry docsDir))

/-- The scan+score+rank pipeline of `search_docset`: a `none` store models a
store that cannot be opened or queried. -/
def computeMatches (store : Option (List RawRow)) (docsDir q : String) :
    Except SearchError (List Entry) :=
  match store with
  | none => Except.error SearchError.storeUnavailable
  | some rows =>
    if q.isEmpty then emptyQueryMatches docsDir rows else fuzzyQueryMatches docsDir q rows

/-! ## Formatter -/

/-- `ansi_term`'s `Colour::Fixed.paint(s).to_string()`: SGR colour code
around the glyph. -/
def paint (code : String) (s : String) : String :=
  ("\x1b[") ++ code ++ ("m") ++ s ++ ("\x1b[0m")

/-- ASCII lowercasing of a string (model of Rust `str::to_lowercase`, whose
Unicode-only extras are irrelevant to the ASCII kind strings of the store). -/
def lowerString (s : String) : String := ⟨s.data.map Char.toLower⟩

/-- The kind-to-glyph table of `type_icon`, keyed by lowercased kind. -/
def glyphTable : List (String × String) :=
  [("guide", paint ("32") ("󰗚")),
   ("section", paint ("33") ("§")),
   ("function", paint ("36") ("ƒ")),
   ("method", paint ("34") ("m")),
   ("class", paint ("35") ("🅒")),
   ("struct", paint ("31") ("🅢")),
   ("_struct", paint ("31") ("🅢")),
   ("enum", paint ("35") ("🄴")),
   ("constant", paint ("34") ("𝑪")),
   ("property", paint ("33") ("")),
   ("macro", paint ("36") ("μ")),
   ("interface", paint ("35") ("🄸")),
   ("typedef", paint ("36") ("𝙏")),
   ("type", paint ("36") ("𝙏")),
   ("attribute", paint ("33") ("󰓹")),
   ("event", paint ("36") ("")),
   ("variable", paint ("34") ("𝚟")),
   ("module", paint ("33") ("󰏖")),
   ("constructor", paint ("31") (""))]

/-- `type_icon` of src/main.rs: match on the lowercased kind string; the
catch-all arm returns the (lowercased) matched string itself. -/
def type_icon (t : String) : String :=
  match List.lookup (lowerString t) glyphTable with
  | some g => g
  | none => lowerString t

/-- One output line of the result loop in `search_docset`. -/
def formatLine (icons : Bool) (e : Entry) : String :=
  if icons then
    type_icon e.type_ ++ ("\t") ++ e.name ++ ("\t") ++ e.type_ ++ ("\t") ++ e.path
  else
    ("\t") ++ e.name ++ ("\t") ++ e.type_ ++ ("\t") ++ e.path

/-- `search_docset`: computes the full match list, then emits one line per
match; on error nothing is emitted.  The pair is (stdout lines, result). -/
def search_docset (store : Option (List RawRow)) (docsDir q : String) (icons : Bool) :
    List String × Except SearchError Nat :=
  match computeMatches store docsDir q with
  | Except.error e => ([], Except.error e)
  | Except.ok ms => (ms.map (formatLine icons), Except.ok ms.length)

/-- The informational no-results line printed by `main`. -/
def noResultsLine (q docset : String) : String :=
  ("No results found for \x27") ++ q ++ ("\x27 in docset \x27") ++ docset ++ ("\x27")

/-- The `Search` branch of `main`: stdout lines and process exit code.
Errors are printed to stderr and yield exit code 1. -/
def runSearchCommand (store : Option (List RawRow)) (docsDir q docset : String)
    (icons : Bool) : List String × Nat :=
  match search_docset store docsDir q icons with
  | (lines, Except.error _) => (lines, 1)
  | (lines, Except.ok 0) => (lines ++ [noResultsLine q docset], 0)
  | (lines, Except.ok _) => (lines, 0)

/-- The number of candidate records read from the index for a given query. -/
def candidatesRead (q : String) (rows : List RawRow) : Nat :=
  if q.isEmpty then rows.length else (likeFilter q rows).length

/-- The example store rows of the spec (section 8). -/
def exampleRows : List RawRow :=
  [⟨some ("readFile"), some ("function"), some ("fs/readFile.html")⟩,
   ⟨some ("readdir"), some ("function"), some ("fs/readdir.html")⟩,
   ⟨some ("ReadStream"), some ("class"), some ("fs/ReadStream.html")⟩]

/-! ## Row collection lemmas -/

theorem collectExcept_ok_length {α : Type} :
    ∀ {l : List (Except SearchError α)} {as : List α},
      collectExcept l = Except.ok as → as.length = l.length := by
  intro l
  induction l with
  | nil =>
    intro as h
    simp [collectExcept] at h
    rw [h]
    rfl
  | cons x t ih =>
    intro as h
    cases x with
    | error e => simp [collectExcept] at h
    | ok a =>
      simp only [collectExcept] at h
      cases hc : collectExcept t with
      | error e =>
        rw [hc] at h
        simp [Except.map] at h
      | ok bs =>
        rw [hc] at h
        simp [Except.map] at h
        rw [← h]
        simp [ih hc]

theorem collectExcept_ok_mem {α : Type} :
    ∀ {l : List (Except SearchError α)} {as : List α},
      collectExcept l = Except.ok as → ∀ {a : α}, a ∈ as → Except.ok a ∈ l := by
  intro l
  induction l with
  | nil =>
    intro as h a ha
    simp [collectExcept] at h
    rw [h] at ha
    simp at ha
  | cons x t ih =>
    intro as h a ha
    cases x with
    | error e => simp [collectExcept] at h
    | ok b =>
      simp only [collectExcept] at h
      cases hc : collectExcept t with
      | error e =>
        rw [hc] at h
        simp [Except.map] at h
      | ok bs =>
        rw [hc] at h
        simp [Except.map] at h
        rw [← h] at ha
        rcases List.mem_cons.mp ha with heq | hmem
        · rw [heq]
          exact List.mem_cons_self _ _
        · exact List.mem_cons_of_mem _ (ih hc hmem)

theorem collectExcept_error_invalid {α : Type} :
    ∀ {l : List (Except SearchError α)},
      (∀ y ∈ l, y = Except.error SearchError.invalidColumnType ∨ ∃ a, y = Except.ok a) →
      (∃ y ∈ l, y = Except.error SearchError.invalidColumnType) →
      collectExcept l = Except.error SearchError.invalidColumnType := by
  intro l
  induction l with
  | nil =>
    intro _ hbad
    rcases hbad with ⟨y, hy, _⟩
    simp at hy
  | cons x t ih =>
    intro hall hbad
    rcases hall x (List.mem_cons_self x t) with hx | ⟨a, hx⟩
    · rw [hx]
      rfl
    · rw [hx]
      rcases hbad with ⟨y, hy, hye⟩
      rcases List.mem_cons.mp hy with heq | hyt
      · rw [heq, hx] at hye
        exact Except.noConfusion hye
      · have ht := ih (fun z hz => hall z (List.mem_cons_of_mem x hz)) ⟨y, hyt, hye⟩
        simp [collectExcept, ht, Except.map]

/-! ## Row reading lemmas -/

theorem readRow3_wf {r : RawRow} (h : wfRow r = true) :
    readRow3 r = Except.ok (rowVal r) := by
  rcases r with ⟨n, t, p⟩
  cases n <;> cases t <;> cases p <;> simp [wfRow] at h <;> rfl

theorem readRow3_not_wf {r : RawRow} (h : wfRow r = false) :
    readRow3 r = Except.error SearchError.invalidColumnType := by
  rcases r with ⟨n, t, p⟩
  cases n <;> cases t <;> cases p <;> first
    | rfl
    | simp [wfRow] at h

theorem readRow3_ok_name {r : RawRow} {v : String × String × String}
    (h : readRow3 r = Except.ok v) : r.name = some v.1 := by
  rcases r with ⟨n, t, p⟩
  cases n <;> cases t <;> cases p <;> simp [readRow3] at h <;> simp [← h]

theorem name_of_wf {r : RawRow} (h : wfRow r = true) : r.name = some (rowVal r).1 := by
  rcases r with ⟨n, t, p⟩
  cases n <;> cases t <;> cases p <;> simp [wfRow] at h <;> rfl

theorem collect_rows_wf (d : String) :
    ∀ (rows : List RawRow), (∀ r ∈ rows, wfRow r = true) →
      collectExcept (rows.map (fun r => (readRow3 r).map (toEntry0 d))) =
        Except.ok (rows.map (fun r => toEntry0 d (rowVal r))) := by
  intro rows
  induction rows with
  | nil =>
    intro _
    rfl
  | cons r t ih =>
    intro hwf
    have h1 := readRow3_wf (hwf r (List.mem_cons_self r t))
    have h2 := ih (fun x hx => hwf x (List.mem_cons_of_mem r hx))
    have h1m : (readRow3 r).map (toEntry0 d) = Except.ok (toEntry0 d (rowVal r)) := by
      rw [h1]
      rfl
    simp only [List.map_cons, h1m, collectExcept, h2]
    rfl

theorem emptyQueryMatches_wf (d : String) (rows : List RawRow)
    (hwf : ∀ r ∈ rows, wfRow r = true) :
    emptyQueryMatches d rows =
      Except.ok (sortByName (rows.map (fun r => toEntry0 d (rowVal r)))) := by
  unfold emptyQueryMatches
  rw [collect_rows_wf d rows hwf]
  rfl

/-! ## Subsequence and infix lemmas -/

theorem isSubseqB_refl : ∀ l : List Char, isSubseqB l l = true := by
  intro l
  induction l with
  | nil => rfl
  | cons c cs ih => simp [isSubseqB, ih]

theorem isPrefixB_refl : ∀ l : List Char, isPrefixB l l = true := by
  intro l
  induction l with
  | nil => rfl
  | cons c cs ih => simp [isPrefixB, ih]

theorem isInfixB_refl : ∀ l : List Char, isInfixB l l = true := by
  intro l
  cases l with
  | nil => rfl
  | cons c cs => simp [isInfixB, isPrefixB_refl]

theorem isPrefixB_nil_right {x : List Char} (h : isPrefixB x [] = true) : x = [] := by
  cases x with
  | nil => rfl
  | cons c cs => simp [isPrefixB] at h

/-! ## LIKE lemmas: a wildcard-free pattern between two `%` forces an
ASCII-case-insensitive contiguous occurrence. -/

theorem likeMatch_lits_isPrefixB :
    ∀ (q s : List Char), (∀ c ∈ q, c ≠ '%' ∧ c ≠ '_') →
      likeMatch (q ++ ['%']) s = true →
      isPrefixB (q.map Char.toLower) (s.map Char.toLower) = true := by
  intro q
  induction q with
  | nil =>
    intro s _ _
    rfl
  | cons c cs ih =>
    intro s hwild h
    have hc := hwild c (List.mem_cons_self c cs)
    cases s with
    | nil =>
      simp [List.cons_append, likeMatch, hc.1] at h
    | cons c' st =>
      simp only [List.cons_append, likeMatch, if_neg hc.1, if_neg hc.2,
        Bool.and_eq_true] at h
      simp only [List.map_cons, isPrefixB, Bool.and_eq_true]
      refine ⟨?_, ih st (fun x hx => hwild x (List.mem_cons_of_mem c hx)) h.2⟩
      exact h.1

theorem suffix_prefix_infix :
    ∀ (s t x : List Char), t ∈ suffixes s →
      isPrefixB x (t.map Char.toLower) = true →
      isInfixB x (s.map Char.toLower) = true := by
  intro s
  induction s with
  | nil =>
    intro t x ht hp
    simp [suffixes] at ht
    rw [ht] at hp
    simp at hp
    rw [isPrefixB_nil_right hp]
    rfl
  | cons c cs ih =>
    intro t x ht hp
    simp only [suffixes, List.mem_cons] at ht
    rcases ht with heq | hmem
    · rw [heq] at hp
      simp only [List.map_cons] at hp
      simp only [List.map_cons, isInfixB, hp, Bool.true_or]
    · simp only [List.map_cons, isInfixB, ih t x hmem hp, Bool.or_true]

theorem likeMatch_infix {q s : List Char}
    (hwild : ∀ c ∈ q, c ≠ '%' ∧ c ≠ '_')
    (h : likeMatch ('%' :: (q ++ ['%'])) s = true) :
    isInfixB (q.map Char.toLower) (s.map Char.toLower) = true := by
  simp only [likeMatch, if_pos rfl] at h
  rcases List.any_eq_true.mp h with ⟨t, ht, hmt⟩
  exact suffix_prefix_infix s t (q.map Char.toLower) ht (likeMatch_lits_isPrefixB q t hwild hmt)

/-! ## Comparator properties -/

theorem nameLe_trans : ∀ a b c : Entry,
    nameLe a b = true → nameLe b c = true → nameLe a c = true := by
  intro a b c h1 h2
  exact lexLe_trans a.name.data b.name.data c.name.data h1 h2

theorem nameLe_total : ∀ a b : Entry, (nameLe a b || nameLe b a) = true := by
  intro a b
  exact lexLe_total a.name.data b.name.data

theorem scoreDescLe_trans : ∀ a b c : Entry,
    scoreDescLe a b = true → scoreDescLe b c = true → scoreDescLe a c = true := by
  intro a b c h1 h2
  simp [scoreDescLe] at h1 h2 ⊢
  exact le_trans h2 h1

theorem scoreDescLe_total : ∀ a b : Entry, (scoreDescLe a b || scoreDescLe b a) = true := by
  intro a b
  simp [scoreDescLe]
  exact Int.le_total b.score a.score

/-! ## Fuzzy pipeline decomposition -/

theorem fuzzyQueryMatches_ok_eq (d q : String) (rows : List RawRow)
    {cands : List (String × String × String)}
    (hc : collectExcept ((likeFilter q rows).map readRow3) = Except.ok cands) :
    fuzzyQueryMatches d q rows =
      Except.ok ((sortDescScore (scoredCandidates q cands)).map (joinEntry d)) := by
  unfold fuzzyQueryMatches
  rw [hc]
  rfl

theorem computeMatches_fuzzy {q : String} (hq : q.isEmpty = false)
    (store : List RawRow) (d : String) :
    computeMatches (some store) d q = fuzzyQueryMatches d q store := by
  simp [computeMatches, hq]

theorem computeMatches_list {q : String} (hq : q.isEmpty = true)
    (store : List RawRow) (d : String) :
    computeMatches (some store) d q = emptyQueryMatches d store := by
  simp [computeMatches, hq]

/-- Every entry of a fuzzy result list carries its own `fuzzy_match` score and
stems from a LIKE-filtered row of the store with the same name. -/
theorem mem_fuzzy_matches {d q : String} {rows : List RawRow} {ms : List Entry} {e : Entry}
    (hok : fuzzyQueryMatches d q rows = Except.ok ms) (he : e ∈ ms) :
    fuzzy_match e.name q = some e.score ∧
    ∃ r ∈ likeFilter q rows, r.name = some e.name := by
  unfold fuzzyQueryMatches at hok
  cases hc : collectExcept ((likeFilter q rows).map readRow3) with
  | error er =>
    rw [hc] at hok
    exact absurd hok (by simp [Except.map])
  | ok cands =>
    rw [hc] at hok
    simp only [Except.map, Except.ok.injEq] at hok
    rw [← hok] at he
    rcases List.mem_map.mp he with ⟨e', he', hje⟩
    have hes : e' ∈ scoredCandidates q cands :=
      (sortStable_perm scoreDescLe (scoredCandidates q cands)).mem_iff.mp he'
    rcases List.mem_filterMap.mp hes with ⟨v, hv, hfv⟩
    rcases Option.map_eq_some'.mp hfv with ⟨s, hs, hesv⟩
    have hname : e.name = v.1 := by
      rw [← hje, ← hesv]
      rfl
    have hscore : e.score = s := by
      rw [← hje, ← hesv]
      rfl
    constructor
    · rw [hname, hscore]
      exact hs
    · have hokv : Except.ok v ∈ (likeFilter q rows).map readRow3 :=
        collectExcept_ok_mem hc hv
      rcases List.mem_map.mp hokv with ⟨r, hr, hrv⟩
      refine ⟨r, hr, ?_⟩
      rw [readRow3_ok_name hrv, hname]

theorem fuzzyQueryMatches_err (d q : String) (rows : List RawRow) {e : SearchError}
    (hc : collectExcept ((likeFilter q rows).map readRow3) = Except.error e) :
    fuzzyQueryMatches d q rows = Except.error e := by
  unfold fuzzyQueryMatches
  rw [hc]
  rfl

theorem emptyQueryMatches_err (d : String) (rows : List RawRow) {e : SearchError}
    (hc : collectExcept (rows.map (fun r => (readRow3 r).map (toEntry0 d))) =
      Except.error e) :
    emptyQueryMatches d rows = Except.error e := by
  unfold emptyQueryMatches
  rw [hc]
  rfl

theorem emptyQueryMatches_ok_eq (d : String) (rows : List RawRow) {as : List Entry}
    (hc : collectExcept (rows.map (fun r => (readRow3 r).map (toEntry0 d))) =
      Except.ok as) :
    emptyQueryMatches d rows = Except.ok (sortByName as) := by
  unfold emptyQueryMatches
  rw [hc]
  rfl

/-- A `some` result of `fuzzy_match` forces the subsequence condition. -/
theorem fuzzy_match_some_subseq {name q : String} {s : Int}
    (h : fuzzy_match name q = some s) :
    isSubseqB (q.data.map Char.toLower) (name.data.map Char.toLower) = true := by
  unfold fuzzy_match at h
  by_cases hc : isSubseqB (q.data.map Char.toLower) (name.data.map Char.toLower) = true
  · exact hc
  · rw [if_neg hc] at h
    exact Option.noConfusion h

/-! ## Claim C4 -/

/-- C4 counterexample: a store holding a malformed row (NULL name) next to a
good row makes the whole empty-query search fail with an error and produce no
output, instead of skipping the malformed row and returning the good row's
line as the claim demands. -/
theorem c4_counterexample :
    search_docset (some [⟨none, some ("t"), some ("p")⟩, ⟨some ("good"), some ("t"), some ("p")⟩])
        ("docs") ("") false = ([], Except.error SearchError.invalidColumnType) ∧
    search_docset (some [⟨some ("good"), some ("t"), some ("p")⟩]) ("docs") ("") false =
      ([("\tgood\tt\tdocs/p")], Except.ok 1) ∧
    ([] : List String) ≠ [("\tgood\tt\tdocs/p")] :=
  ⟨rfl, rfl, by decide⟩

/-- C4 (amended): in list mode (empty query), a store containing any
malformed record (a row with a NULL field) makes `search_docset` abort the
whole search with a row-level error and zero output lines; the remaining
records are not processed into output.  (In fuzzy mode a NULL name is
silently dropped by the SQL LIKE filter, but a NULL type or path column
aborts in the same way.) -/
theorem c4_malformed_aborts (d : String) (i : Bool) (rows : List RawRow) (r : RawRow)
    (hr : r ∈ rows) (hbad : wfRow r = false) :
    search_docset (some rows) d ("") i = ([], Except.error SearchError.invalidColumnType) := by
  have hcol : collectExcept (rows.map (fun x => (readRow3 x).map (toEntry0 d))) =
      Except.error SearchError.invalidColumnType := by
    apply collectExcept_error_invalid
    · intro y hy
      rcases List.mem_map.mp hy with ⟨x, hx, hxy⟩
      cases hw : wfRow x with
      | true =>
        right
        refine ⟨toEntry0 d (rowVal x), ?_⟩
        rw [← hxy, readRow3_wf hw]
        rfl
      | false =>
        left
        rw [← hxy, readRow3_not_wf hw]
        rfl
    · refine ⟨(readRow3 r).map (toEntry0 d), List.mem_map_of_mem _ hr, ?_⟩
      rw [readRow3_not_wf hbad]
      rfl
  have hcm : computeMatches (some rows) d ("") =
      Except.error SearchError.invalidColumnType := by
    rw [computeMatches_list (show ("" : String).isEmpty = true from rfl) rows d,
      emptyQueryMatches_err d rows hcol]
  simp [search_docset, hcm]

/-- C4 witness: the amended theorem evaluated on a concrete two-row store. -/
theorem c4_witness :
    (⟨none, some ("t"), some ("p")⟩ : RawRow) ∈
      [(⟨none, some ("t"), some ("p")⟩ : RawRow), ⟨some ("good"), some ("t"), some ("p")⟩] ∧
    wfRow ⟨none, some ("t"), some ("p")⟩ = false ∧
    search_docset (some [⟨none, some ("t"), some ("p")⟩, ⟨some ("good"), some ("t"), some ("p")⟩])
        ("ddd") ("") true = ([], Except.error SearchError.invalidColumnType) :=
  ⟨by decide, rfl,
    c4_malformed_aborts ("ddd") true
      [⟨none, some ("t"), some ("p")⟩, ⟨some ("good"), some ("t"), some ("p")⟩]
      ⟨none, some ("t"), some ("p")⟩ (by decide) (by rfl)⟩

/-! ## Claim C5 -/

/-- C5 counterexample: for the kind string Foo (absent from the glyph
table), the decorated formatter emits the lowercased string foo in the glyph
position, not the raw string Foo unchanged as claimed. -/
theorem c5_counterexample :
    formatLine true ⟨0, ("n"), ("Foo"), ("p")⟩ = ("foo\tn\tFoo\tp") ∧
    ("foo\tn\tFoo\tp" : String) ≠ ("Foo\tn\tFoo\tp") :=
  ⟨rfl, by decide⟩

/-- C5 (amended): for every kind string absent from the glyph lookup table,
the decorated formatter emits the LOWERCASED kind string (no glyph
substitution and no error) in the glyph position of the output line; the
raw string is passed through unchanged only when it is already lowercase. -/
theorem c5_unknown_kind_lowercased (e : Entry)
    (h : List.lookup (lowerString e.type_) glyphTable = none) :
    formatLine true e =
      lowerString e.type_ ++ ("\t") ++ e.name ++ ("\t") ++ e.type_ ++ ("\t") ++ e.path := by
  simp [formatLine, type_icon, h]

/-- C5 witness: the amended theorem evaluated at the unknown kind Foo. -/
theorem c5_witness :
    List.lookup (lowerString ("Foo")) glyphTable = none ∧
    formatLine true ⟨0, ("n"), ("Foo"), ("p")⟩ =
      lowerString ("Foo") ++ ("\t") ++ ("n") ++ ("\t") ++ ("Foo") ++ ("\t") ++ ("p") :=
  ⟨by decide, c5_unknown_kind_lowercased ⟨0, ("n"), ("Foo"), ("p")⟩ (by decide)⟩

/-! ## Claim C6 -/

/-- C6: the search never emits a partial result followed by a failure:
whenever the result is an error, the emitted line list is empty, and
whenever the pipeline completes with `ms`, exactly the lines of `ms` are
emitted as a unit together with the success result. -/
theorem c6_no_partial_emission (store : Option (List RawRow)) (d q : String) (i : Bool) :
    (∀ er, (search_docset store d q i).2 = Except.error er →
      (search_docset store d q i).1 = []) ∧
    (∀ ms, computeMatches store d q = Except.ok ms →
      search_docset store d q i = (ms.map (formatLine i), Except.ok ms.length)) := by
  constructor
  · intro er her
    unfold search_docset at her ⊢
    cases h : computeMatches store d q with
    | error e2 => rfl
    | ok ms =>
      rw [h] at her
      simp at her
  · intro ms hms
    unfold search_docset
    rw [hms]

/-- C6 witness: the theorem applied to an unavailable store. -/
theorem c6_witness :
    (search_docset none ("docs") ("q") false).1 = [] :=
  (c6_no_partial_emission none ("docs") ("q") false).1 SearchError.storeUnavailable rfl

/-! ## Claim C7 -/

/-- C7: a store that cannot be opened yields the single typed error
`storeUnavailable` with zero stdout lines, and the CLI completes with the
non-zero exit code 1, never a partial result. -/
theorem c7_store_unavailable (d q docset : String) (i : Bool) :
    search_docset none d q i = ([], Except.error SearchError.storeUnavailable) ∧
    runSearchCommand none d q docset i = ([], 1) :=
  ⟨rfl, rfl⟩

/-! ## Claim C10 -/

/-- C10: the number of emitted output lines never exceeds the number of
candidate records read from the index (the full table for the empty query,
the LIKE-filtered rows otherwise). -/
theorem c10_output_bounded (rows : List RawRow) (d q : String) (i : Bool) :
    ((search_docset (some rows) d q i).1).length ≤ candidatesRead q rows := by
  unfold candidatesRead
  cases hq : q.isEmpty with
  | true =>
    rw [if_pos rfl]
    cases hc : collectExcept (rows.map (fun r => (readRow3 r).map (toEntry0 d))) with
    | error e =>
      have hcm : computeMatches (some rows) d q = Except.error e := by
        rw [computeMatches_list hq rows d, emptyQueryMatches_err d rows hc]
      simp [search_docset, hcm]
    | ok as =>
      have hcm : computeMatches (some rows) d q = Except.ok (sortByName as) := by
        rw [computeMatches_list hq rows d, emptyQueryMatches_ok_eq d rows hc]
      simp only [search_docset, hcm, List.length_map, sortByName]
      rw [(sortStable_perm nameLe as).length_eq]
      have h2 := collectExcept_ok_length hc
      rw [List.length_map] at h2
      exact le_of_eq h2
  | false =>
    rw [if_neg Bool.false_ne_true]
    cases hc : collectExcept ((likeFilter q rows).map readRow3) with
    | error e =>
      have hcm : computeMatches (some rows) d q = Except.error e := by
        rw [computeMatches_fuzzy hq rows d, fuzzyQueryMatches_err d q rows hc]
      simp [search_docset, hcm]
    | ok cands =>
      have hcm : computeMatches (some rows) d q =
          Except.ok ((sortDescScore (scoredCandidates q cands)).map (joinEntry d)) := by
        rw [computeMatches_fuzzy hq rows d, fuzzyQueryMatches_ok_eq d q rows hc]
      simp only [search_docset, hcm, List.length_map, sortDescScore]
      rw [(sortStable_perm scoreDescLe (scoredCandidates q cands)).length_eq]
      have h1 : (scoredCandidates q cands).length ≤ cands.length := by
        unfold scoredCandidates
        exact List.length_filterMap_le _ _
      have h2 := collectExcept_ok_length hc
      rw [List.length_map] at h2
      exact le_trans h1 (le_of_eq h2)

/-! ## Claim C2 -/

/-- C2: for every non-empty query, every candidate in the ranked output has
the query's characters as an ordered subsequence of its name under the
matcher's case folding, and every emitted entry carries a `some` fuzzy
score, so a candidate with no subsequence alignment is excluded entirely
rather than emitted with a zero score. -/
theorem c2_results_are_subsequences (d q : String) (rows : List RawRow)
    (ms : List Entry) (e : Entry)
    (hq : q.isEmpty = false)
    (hok : computeMatches (some rows) d q = Except.ok ms)
    (he : e ∈ ms) :
    isSubseqB (q.data.map Char.toLower) (e.name.data.map Char.toLower) = true ∧
    fuzzy_match e.name q ≠ none := by
  rw [computeMatches_fuzzy hq rows d] at hok
  have h := (mem_fuzzy_matches hok he).1
  exact ⟨fuzzy_match_some_subseq h, by simp [h]⟩

/-- C2 witness: the theorem applied to a one-row store and the query abc. -/
theorem c2_witness :
    ("abc" : String).isEmpty = false ∧
    isSubseqB (("abc" : String).data.map Char.toLower)
      (("xABCy" : String).data.map Char.toLower) = true :=
  ⟨rfl, (c2_results_are_subsequences ("docs") ("abc")
      [⟨some ("xABCy"), some ("t"), some ("p")⟩]
      [⟨4, ("xABCy"), ("t"), ("docs/p")⟩]
      ⟨4, ("xABCy"), ("t"), ("docs/p")⟩
      (by rfl) (by rfl) (by decide)).1⟩

/-! ## Claim C9 -/

/-- C9: a candidate whose name equals the query exactly scores at least as
high as any other emitted candidate that contains the query only as a
non-contiguous subsequence (no contiguous occurrence under case folding). -/
theorem c9_exact_match_dominates (d q : String) (rows : List RawRow)
    (ms : List Entry) (e₁ e₂ : Entry)
    (hq : q.isEmpty = false)
    (hok : computeMatches (some rows) d q = Except.ok ms)
    (h1 : e₁ ∈ ms) (h2 : e₂ ∈ ms)
    (hexact : e₁.name = q)
    (hsub : isSubseqB (q.data.map Char.toLower) (e₂.name.data.map Char.toLower) = true)
    (hninf : isInfixB (q.data.map Char.toLower) (e₂.name.data.map Char.toLower) = false) :
    e₂.score ≤ e₁.score := by
  rw [computeMatches_fuzzy hq rows d] at hok
  have hf1 := (mem_fuzzy_matches hok h1).1
  have hf2 := (mem_fuzzy_matches hok h2).1
  rw [hexact] at hf1
  have hev1 : fuzzy_match q q =
      some (2 * (q.data.length : Int) - (q.data.length : Int) + (q.data.length : Int)) := by
    simp only [fuzzy_match, isSubseqB_refl, isInfixB_refl, if_true]
  have hev2 : fuzzy_match e₂.name q =
      some (2 * (q.data.length : Int) - (e₂.name.data.length : Int) + 0) := by
    simp only [fuzzy_match, hsub, hninf, if_true, Bool.false_eq_true, if_false]
  rw [hev1] at hf1
  rw [hev2] at hf2
  have e1s := Option.some.inj hf1
  have e2s := Option.some.inj hf2
  omega

/-- C9 witness: with query a%b the store rows a%b and a%xb are both LIKE
candidates; the exact match scores 6, the subsequence-only match scores 2. -/
theorem c9_witness :
    (⟨6, ("a%b"), ("t"), ("docs/p1")⟩ : Entry).name = ("a%b") ∧
    ((⟨2, ("a%xb"), ("t"), ("docs/p2")⟩ : Entry).score ≤
      (⟨6, ("a%b"), ("t"), ("docs/p1")⟩ : Entry).score) :=
  ⟨rfl, c9_exact_match_dominates ("docs") ("a%b")
    [⟨some ("a%b"), some ("t"), some ("p1")⟩, ⟨some ("a%xb"), some ("t"), some ("p2")⟩]
    [⟨6, ("a%b"), ("t"), ("docs/p1")⟩, ⟨2, ("a%xb"), ("t"), ("docs/p2")⟩]
    ⟨6, ("a%b"), ("t"), ("docs/p1")⟩ ⟨2, ("a%xb"), ("t"), ("docs/p2")⟩
    (by rfl) (by rfl) (by decide) (by decide) (by rfl) (by decide) (by decide)⟩

/-! ## Claim C8 -/

/-- C8 counterexample: with query a%b the SQL wildcard makes the LIKE
pre-filter admit the name a%xb, which reaches the ranked output although it
contains the raw query only as a non-contiguous subsequence, never as a
contiguous substring. -/
theorem c8_counterexample :
    fuzzyQueryMatches ("docs") ("a%b") [⟨some ("a%xb"), some ("t"), some ("p")⟩] =
      Except.ok [⟨2, ("a%xb"), ("t"), ("docs/p")⟩] ∧
    isSubseqB (("a%b" : String).data.map Char.toLower)
      (("a%xb" : String).data.map Char.toLower) = true ∧
    isInfixB (("a%b" : String).data.map Char.toLower)
      (("a%xb" : String).data.map Char.toLower) = false :=
  ⟨rfl, by decide, by decide⟩

/-- C8 (amended): for every non-empty query containing no SQL LIKE
metacharacter (no percent sign and no underscore), every candidate in the
ranked output contains the query as an ASCII-case-insensitive contiguous
substring of its name, because such candidates are pre-filtered by the LIKE
query; consequently, for such queries, a candidate whose name contains the
query's characters only as a non-contiguous subsequence never appears. -/
theorem c8_like_prefilter_substring (d q : String) (rows : List RawRow)
    (ms : List Entry) (e : Entry)
    (hq : q.isEmpty = false)
    (hwild : ∀ c ∈ q.data, c ≠ '%' ∧ c ≠ '_')
    (hok : computeMatches (some rows) d q = Except.ok ms)
    (he : e ∈ ms) :
    isInfixB (q.data.map Char.toLower) (e.name.data.map Char.toLower) = true := by
  rw [computeMatches_fuzzy hq rows d] at hok
  rcases (mem_fuzzy_matches hok he).2 with ⟨r, hr, hname⟩
  have h2 := (List.mem_filter.mp hr).2
  rw [hname] at h2
  simp only at h2
  exact likeMatch_infix hwild h2

/-- C8 witness: the amended theorem applied to the wildcard-free query abc
and a store row whose name contains it case-insensitively. -/
theorem c8_witness :
    (∀ c ∈ ("abc" : String).data, c ≠ '%' ∧ c ≠ '_') ∧
    isInfixB (("abc" : String).data.map Char.toLower)
      (("xABCy" : String).data.map Char.toLower) = true :=
  ⟨by decide, c8_like_prefilter_substring ("docs") ("abc")
    [⟨some ("xABCy"), some ("t"), some ("p")⟩]
    [⟨4, ("xABCy"), ("t"), ("docs/p")⟩] ⟨4, ("xABCy"), ("t"), ("docs/p")⟩
    (by rfl) (by decide) (by rfl) (by decide)⟩

/-! ## Claim C1 -/

/-- C1 counterexample: on the spec's example rows the empty-query output is
ordered ReadStream, readFile, readdir (byte-wise, case-sensitive), not the
claimed case-insensitive order readdir, readFile, ReadStream. -/
theorem c1_counterexample :
    (emptyQueryMatches ("docs") exampleRows).map (fun l => l.map Entry.name) =
      Except.ok ([("ReadStream"), ("readFile"), ("readdir")]) ∧
    ([("ReadStream"), ("readFile"), ("readdir")] : List String) ≠
      [("readdir"), ("readFile"), ("ReadStream")] :=
  ⟨rfl, by decide⟩

/-- C1 (amended): for every candidate set of well-formed rows with pairwise
distinct names, searching with the empty query outputs the same permutation
of the set sorted in ascending lexicographic order by name under
CASE-SENSITIVE byte-wise collation, regardless of the set's enumeration
order from the store; for the rows readFile/readdir/ReadStream the output
order is ReadStream, readFile, readdir. -/
theorem c1_list_mode_sorted_bytewise (d : String) (i : Bool)
    (rows₁ rows₂ : List RawRow) (ms : List Entry)
    (hperm : rows₁.Perm rows₂)
    (hwf : ∀ r ∈ rows₁, wfRow r = true)
    (hnodup : (rows₁.map RawRow.name).Nodup)
    (hms : emptyQueryMatches d rows₁ = Except.ok ms) :
    search_docset (some rows₁) d ("") i = search_docset (some rows₂) d ("") i ∧
    ms.Pairwise (fun a b => nameLe a b = true) ∧
    ms.Perm (rows₁.map (fun r => toEntry0 d (rowVal r))) := by
  have hwf₂ : ∀ r ∈ rows₂, wfRow r = true := fun r hr => hwf r (hperm.mem_iff.mpr hr)
  have h1 := emptyQueryMatches_wf d rows₁ hwf
  have h2 := emptyQueryMatches_wf d rows₂ hwf₂
  have hraw : rows₁.Pairwise (fun a b => a.name ≠ b.name) := List.pairwise_map.mp hnodup
  have hent : rows₁.Pairwise (fun a b =>
      (toEntry0 d (rowVal a)).name.data ≠ (toEntry0 d (rowVal b)).name.data) := by
    refine hraw.imp_of_mem ?_
    intro a b ha hb hne hdeq
    apply hne
    rw [name_of_wf (hwf a ha), name_of_wf (hwf b hb)]
    exact congrArg some (String.ext hdeq)
  have hnd1 : ((rows₁.map (fun r => toEntry0 d (rowVal r))).map
      (fun e => e.name.data)).Nodup := by
    rw [List.map_map]
    exact List.pairwise_map.mpr hent
  have hs1 := pairwise_sortStable nameLe nameLe_trans nameLe_total
    (rows₁.map (fun r => toEntry0 d (rowVal r)))
  have hs2 := pairwise_sortStable nameLe nameLe_trans nameLe_total
    (rows₂.map (fun r => toEntry0 d (rowVal r)))
  have hp12 : (sortByName (rows₁.map (fun r => toEntry0 d (rowVal r)))).Perm
      (sortByName (rows₂.map (fun r => toEntry0 d (rowVal r)))) :=
    ((sortStable_perm nameLe _).trans
      (hperm.map (fun r => toEntry0 d (rowVal r)))).trans (sortStable_perm nameLe _).symm
  have hkey : ∀ a b : Entry, nameLe a b = true → nameLe b a = true →
      a.name.data = b.name.data := fun a b hab hba =>
    lexLe_antisymm a.name.data b.name.data hab hba
  have hnd1' : ((sortByName (rows₁.map (fun r => toEntry0 d (rowVal r)))).map
      (fun e => e.name.data)).Nodup :=
    (((sortStable_perm nameLe _).map (fun e => e.name.data)).nodup_iff).mpr hnd1
  have heq : sortByName (rows₁.map (fun r => toEntry0 d (rowVal r))) =
      sortByName (rows₂.map (fun r => toEntry0 d (rowVal r))) :=
    sorted_perm_eq_of_nodup_key nameLe (fun e => e.name.data) hkey _ _ hp12 hs1 hs2 hnd1'
  have hmseq : ms = sortByName (rows₁.map (fun r => toEntry0 d (rowVal r))) :=
    (Except.ok.inj (h1.symm.trans hms)).symm
  have hcm1 : computeMatches (some rows₁) d ("") =
      Except.ok (sortByName (rows₁.map (fun r => toEntry0 d (rowVal r)))) := by
    rw [computeMatches_list (show ("" : String).isEmpty = true from rfl) rows₁ d, h1]
  have hcm2 : computeMatches (some rows₂) d ("") =
      Except.ok (sortByName (rows₂.map (fun r => toEntry0 d (rowVal r)))) := by
    rw [computeMatches_list (show ("" : String).isEmpty = true from rfl) rows₂ d, h2]
  refine ⟨?_, ?_, ?_⟩
  · simp [search_docset, hcm1, hcm2, heq]
  · rw [hmseq]
    exact hs1
  · rw [hmseq]
    exact sortStable_perm nameLe _

/-- C1 witness: the amended theorem evaluated on the example rows and a
reversed enumeration of the same rows. -/
theorem c1_witness :
    search_docset (some exampleRows) ("docs") ("") false =
      search_docset (some [⟨some ("ReadStream"), some ("class"), some ("fs/ReadStream.html")⟩,
        ⟨some ("readdir"), some ("function"), some ("fs/readdir.html")⟩,
        ⟨some ("readFile"), some ("function"), some ("fs/readFile.html")⟩]) ("docs") ("") false ∧
    List.Pairwise (fun a b => nameLe a b = true)
      [(⟨0, ("ReadStream"), ("class"), ("docs/fs/ReadStream.html")⟩ : Entry),
       ⟨0, ("readFile"), ("function"), ("docs/fs/readFile.html")⟩,
       ⟨0, ("readdir"), ("function"), ("docs/fs/readdir.html")⟩] ∧
    List.Perm
      [(⟨0, ("ReadStream"), ("class"), ("docs/fs/ReadStream.html")⟩ : Entry),
       ⟨0, ("readFile"), ("function"), ("docs/fs/readFile.html")⟩,
       ⟨0, ("readdir"), ("function"), ("docs/fs/readdir.html")⟩]
      (exampleRows.map (fun r => toEntry0 ("docs") (rowVal r))) :=
  c1_list_mode_sorted_bytewise ("docs") false exampleRows
    [⟨some ("ReadStream"), some ("class"), some ("fs/ReadStream.html")⟩,
     ⟨some ("readdir"), some ("function"), some ("fs/readdir.html")⟩,
     ⟨some ("readFile"), some ("function"), some ("fs/readFile.html")⟩]
    [⟨0, ("ReadStream"), ("class"), ("docs/fs/ReadStream.html")⟩,
     ⟨0, ("readFile"), ("function"), ("docs/fs/readFile.html")⟩,
     ⟨0, ("readdir"), ("function"), ("docs/fs/readdir.html")⟩]
    (by decide) (by decide) (by decide) (by rfl)

/-! ## Claim C3 -/

/-- C3: the search is a pure function of the query and store contents (two
runs on equal stores yield equal output), fuzzy-mode output is ordered
descending by score, and entries with equal scores appear exactly in the
order the scorer enumerated the LIKE-filtered candidates (stable sort, no
nondeterministic tie order). -/
theorem c3_deterministic_stable (d q : String) (i : Bool) (rows : List RawRow)
    (cands : List (String × String × String)) (ms : List Entry)
    (hq : q.isEmpty = false)
    (hc : collectExcept ((likeFilter q rows).map readRow3) = Except.ok cands)
    (hok : computeMatches (some rows) d q = Except.ok ms) :
    (∀ store₂ : Option (List RawRow), store₂ = some rows →
      search_docset store₂ d q i = search_docset (some rows) d q i) ∧
    ms.Pairwise (fun a b => b.score ≤ a.score) ∧
    (∀ s : Int, ms.filter (fun e => e.score == s) =
      ((scoredCandidates q cands).map (joinEntry d)).filter (fun e => e.score == s)) := by
  rw [computeMatches_fuzzy hq rows d, fuzzyQueryMatches_ok_eq d q rows hc] at hok
  have hmseq : ms = (sortDescScore (scoredCandidates q cands)).map (joinEntry d) :=
    (Except.ok.inj hok).symm
  subst hmseq
  refine ⟨fun s2 h => by rw [h], ?_, ?_⟩
  · have hp := pairwise_sortStable scoreDescLe scoreDescLe_trans scoreDescLe_total
      (scoredCandidates q cands)
    refine List.pairwise_map.mpr (hp.imp ?_)
    intro a b hab
    exact of_decide_eq_true hab
  · intro s
    have htie : ∀ a b : Entry, (a.score == s) = true → (b.score == s) = true →
        scoreDescLe a b = true := by
      intro a b ha hb
      have ha' : a.score = s := by simpa using ha
      have hb' : b.score = s := by simpa using hb
      simp [scoreDescLe, ha', hb']
    have hstable := filter_sortStable_of_tie scoreDescLe (fun e => e.score == s) htie
      (scoredCandidates q cands)
    rw [List.filter_map, List.filter_map]
    exact congrArg (List.map (joinEntry d)) hstable

/-- C3 witness: the theorem applied to the two-candidate a%b store. -/
theorem c3_witness :
    ("a%b" : String).isEmpty = false ∧
    List.Pairwise (fun a b => b.score ≤ a.score)
      [(⟨6, ("a%b"), ("t"), ("docs/p1")⟩ : Entry), ⟨2, ("a%xb"), ("t"), ("docs/p2")⟩] :=
  ⟨rfl, (c3_deterministic_stable ("docs") ("a%b") false
      [⟨some ("a%b"), some ("t"), some ("p1")⟩, ⟨some ("a%xb"), some ("t"), some ("p2")⟩]
      [(("a%b"), ("t"), ("p1")), (("a%xb"), ("t"), ("p2"))]
      [⟨6, ("a%b"), ("t"), ("docs/p1")⟩, ⟨2, ("a%xb"), ("t"), ("docs/p2")⟩]
      (by rfl) (by rfl) (by rfl)).2.1⟩

end ZealCli
